import Mathlib

/-!
# Verification of the xdelta3-dir-patcher differential tree engine

Shallow embedding of `src/lib/xdelta3-dir-patcher.py` (the directory-level
binary patch engine).  Python strings are modelled as lists of characters
(`PyStr`), Python `None`-or-string values as `Option PyStr`, dictionaries as
insertion-ordered association/key lists, and fallible code as `Except`.
Definitions are translated directly from the source; where a claim compares
the code against the specification's own wording, a second definition named
`spec...` follows the specification text.
-/

namespace XD3

/-- Model of a Python `str`: a list of characters. -/
abbrev PyStr := List Char

/-- POSIX `os.path.sep` (`'/'`). -/
def pySep : PyStr := "/".data

/-- Python `s.startswith(pre)`: `pre` is a character-level prefix of `s`. -/
def startswith (s pre : PyStr) : Bool := pre.isPrefixOf s

/-- Python truthiness of an optional string: `None` and `""` are falsy. -/
def pyTruthy (p : Option PyStr) : Bool :=
  match p with
  | none => false
  | some s => !s.isEmpty

/-! ## C2: patch selection in `XDelta3DirPatcher.apply` (source lines 1162-1181)

The source computes
`patches = [p for p in all_archive_items if p and p.startswith(delta_patch_root)]`
over the keys of the patch bundle's flat mapping (`None` is the root key). -/

/-- The `patches` list computed by `XDelta3DirPatcher.apply`:
keys that are truthy and start (as a plain string prefix) with
`delta_patch_root`. -/
def apply_patches (all_archive_items : List (Option PyStr))
    (delta_patch_root : PyStr) : List PyStr :=
  all_archive_items.filterMap (fun p =>
    match p with
    | none => none
    | some s => if pyTruthy (some s) && startswith s delta_patch_root
                then some s else none)

/-- The partition predicate as the specification words it: `p` equals
`patch_root` or starts with `patch_root` followed by the path separator. -/
def specPatchPredicate (delta_patch_root p : PyStr) : Bool :=
  p == delta_patch_root || startswith p (delta_patch_root ++ pySep)

/-- The set of scheduled entries as the specification describes it. -/
def specPatches (all_archive_items : List (Option PyStr))
    (delta_patch_root : PyStr) : List PyStr :=
  all_archive_items.filterMap (fun p =>
    match p with
    | none => none
    | some s => if specPatchPredicate delta_patch_root s then some s else none)

/-! ## C3: `ExecutorRunner.join_all` (source lines 230-251)

`join_all` first calls `executor.shutdown(False)` (closing the submission
gate without waiting), then iterates `as_completed(self.futures)` and
`raise`s the first future whose `exception()` is set.  We model the pool's
behaviour as a function of the task outcomes listed in completion order
(`none` = finished normally, `some e` = raised `e`). -/

/-- The `for future in as_completed(...)` loop of `join_all`: walks outcomes
in completion order, returning how many futures were awaited before the
function returned and which exception (if any) was re-raised.  On the first
outcome carrying an exception the loop `raise`s immediately. -/
def join_all_loop {ε : Type} : List (Option ε) → Nat × Option ε
  | [] => (0, none)
  | none :: rest => ((join_all_loop rest).1 + 1, (join_all_loop rest).2)
  | some e :: _ => (1, some e)

/-- Result of `ExecutorRunner.join_all`. -/
structure JoinResult (ε : Type) where
  submissionGateClosed : Bool
  settledBeforeReturn : Nat
  raised : Option ε
  deriving DecidableEq

/-- `ExecutorRunner.join_all`, as a function of the completion-ordered task
outcomes: `shutdown(False)` closes the gate, then the completion loop runs. -/
def join_all {ε : Type} (completed : List (Option ε)) : JoinResult ε :=
  { submissionGateClosed := true
    settledBeforeReturn := (join_all_loop completed).1
    raised := (join_all_loop completed).2 }

/-! ## C5: `XDelta3DirPatcher.copy_attributes_from_archive` (lines 882-898)

```
if file_obj.permissions: chmod(target, file_obj.permissions)
if file_obj.uid and file_obj.gid:
    try: lchown(target, file_obj.uid, file_obj.gid)
    except PermissionError as pe:
        if not self.args.ignore_euid: raise pe
    except NameError as ne: pass
```
The metadata fields may be `None` (zip adapter) or integers; Python `if x:`
is false for `None` and for `0`. -/

/-- The metadata a bundle entry records (`permissions`, `uid`, `gid`;
`None` when the backing archive does not carry the field). -/
structure BundleEntryMeta where
  permissions : Option Int
  uid : Option Int
  gid : Option Int
  deriving DecidableEq

/-- Outcome of the `lchown` system call on the target. -/
inductive LchownOutcome
  | ok
  | permissionDenied
  | nameUndefined
  deriving DecidableEq

/-- A metadata operation actually performed on the target. -/
inductive MetaOp
  | chmodOp (mode : Int)
  | lchownOp (u g : Int)
  deriving DecidableEq

/-- Python truthiness of an optional integer: `None` and `0` are falsy. -/
def pyTruthyInt (p : Option Int) : Bool :=
  match p with
  | none => false
  | some n => n != 0

/-- The `if file_obj.permissions: chmod(...)` step: performed only when the
recorded permissions are truthy (present and nonzero). -/
def chmod_ops (p : Option Int) : List MetaOp :=
  match p with
  | some mode => if mode ≠ 0 then [MetaOp.chmodOp mode] else []
  | none => []

/-- `XDelta3DirPatcher.copy_attributes_from_archive`: given the bundle
entry's recorded metadata, the `lchown` outcome and the `ignore_euid` flag,
returns the list of metadata operations performed, or an error when a
`PermissionError` propagates. -/
def copy_attributes_from_archive (m : BundleEntryMeta)
    (lchown_outcome : LchownOutcome) (ignore_euid : Bool) :
    Except Unit (List MetaOp) :=
  match m.uid, m.gid with
  | some u, some g =>
    if u ≠ 0 ∧ g ≠ 0 then
      match lchown_outcome with
      | .ok => .ok (chmod_ops m.permissions ++ [MetaOp.lchownOp u g])
      | .permissionDenied =>
          if ignore_euid then .ok (chmod_ops m.permissions) else .error ()
      | .nameUndefined => .ok (chmod_ops m.permissions)
    else .ok (chmod_ops m.permissions)
  | _, _ => .ok (chmod_ops m.permissions)

/-! ## C6: `XDelta3DirPatcher.check_euid` (lines 1237-1247) and `run`
(lines 1264-1267)

`check_euid` defaults its euid probe to `os.geteuid` on POSIX and to
`lambda: None` on Windows, then raises when
`(not ignore_euid) and get_euid_method() != 0`.  `run` calls `check_euid`
before `apply` (which opens the archives). -/

/-- `XDelta3DirPatcher.check_euid`: `euid` is the probed effective uid
(`some e` on POSIX, `none` on Windows where the probe is `lambda: None`). -/
def check_euid (ignore_euid : Bool) (euid : Option Int) : Except Unit Unit :=
  if !ignore_euid && euid != some 0 then .error () else .ok ()

/-- Observable steps of `XDelta3DirPatcher.run` on the apply path. -/
inductive RunEvent
  | euidCheck
  | archiveOpen
  | applyPatches
  deriving DecidableEq

/-- The apply branch of `XDelta3DirPatcher.run`: the euid check runs first;
only when it passes are the old archive and the patch bundle opened and the
patches applied.  Returns the event trace and whether the run failed. -/
def run_apply (ignore_euid : Bool) (euid : Option Int) :
    List RunEvent × Bool :=
  match check_euid ignore_euid euid with
  | .error _ => ([RunEvent.euidCheck], true)
  | .ok _ =>
      ([RunEvent.euidCheck, RunEvent.archiveOpen, RunEvent.archiveOpen,
        RunEvent.applyPatches], false)

/-! ## C8: adapter selection (lines 265-271, 312-314, 491-493, 716-718)

`XDeltaArchive.get_archive_instance` iterates
`XDelta3AbstractArchiveImpl.__subclasses__()` — the subclasses in
definition order: `XDelta3FsImpl`, `XDelta3TarImpl`, `XDelta3ZipImpl` —
and returns the first whose `can_open` accepts the path, raising
`RuntimeError` ("Archive ... bad or not supported") otherwise. -/

/-- The facts about a candidate path consulted by the `can_open` probes:
whether it is a directory or a regular file, and whether its bytes sniff
as a tar archive (`tarfile.is_tarfile`) or a zip archive
(`zipfile.is_zipfile`). -/
inductive PathKind
  | directory
  | regularFile (isTarFile : Bool) (isZipFile : Bool)
  | absent
  deriving DecidableEq

/-- `XDelta3FsImpl.can_open`: `os.path.isdir(archive)`. -/
def XDelta3FsImpl_can_open : PathKind → Bool
  | .directory => true
  | _ => false

/-- `XDelta3TarImpl.can_open`:
`os.path.isfile(archive) and tarfile.is_tarfile(archive)`. -/
def XDelta3TarImpl_can_open : PathKind → Bool
  | .regularFile t _ => t
  | _ => false

/-- `XDelta3ZipImpl.can_open`:
`os.path.isfile(archive) and zipfile.is_zipfile(archive)`. -/
def XDelta3ZipImpl_can_open : PathKind → Bool
  | .regularFile _ z => z
  | _ => false

/-- The three adapter classes. -/
inductive AdapterKind
  | fs
  | tar
  | zip
  deriving DecidableEq

/-- `XDelta3AbstractArchiveImpl.__subclasses__()` in definition order,
each paired with its `can_open` probe. -/
def subclassProbes : List (AdapterKind × (PathKind → Bool)) :=
  [(AdapterKind.fs, XDelta3FsImpl_can_open),
   (AdapterKind.tar, XDelta3TarImpl_can_open),
   (AdapterKind.zip, XDelta3ZipImpl_can_open)]

/-- The `for clazz in ...__subclasses__(): if clazz.can_open(...)` loop. -/
def get_archive_instance_loop :
    List (AdapterKind × (PathKind → Bool)) → PathKind →
      Except Unit AdapterKind
  | [], _ => .error ()
  | c :: rest, k =>
      if c.2 k then .ok c.1 else get_archive_instance_loop rest k

/-- `XDeltaArchive.get_archive_instance`. -/
def get_archive_instance (k : PathKind) : Except Unit AdapterKind :=
  get_archive_instance_loop subclassProbes k

/-! ## C9: codec invocation for regular-file diffs (lines 825-838, 947-958)

`XDelta3Impl.diff` builds the argument vector
`["lib/xdelta3", "-f", "-e"] (+ ["-s", old_file]) + [new_file, target_file]`
with the `-s` pair added under Python truthiness of `old_file`;
`_find_file_delta` passes `old_path = path.join(old_root, filename)` when
`os.path.isfile(old_path)` holds for the staged old file, else `None`. -/

/-- Python `s.endswith(suf)`. -/
def endswith (s suf : PyStr) : Bool := suf.isSuffixOf s

/-- `posixpath.join(a, b)` for a single right operand. -/
def pyJoin (a b : PyStr) : PyStr :=
  if startswith b pySep then b
  else if a.isEmpty || endswith a pySep then a ++ b
  else a ++ pySep ++ b

/-- `XDelta3Impl.diff`: the argument vector handed to `check_output`. -/
def XDelta3Impl_diff (old_file : Option PyStr)
    (new_file target_file : PyStr) : List PyStr :=
  ["lib/xdelta3".data, "-f".data, "-e".data] ++
    (match old_file with
      | some s => if pyTruthy (some s) then ["-s".data, s] else []
      | none => []) ++
    [new_file, target_file]

/-- The regular-file branch of `XDelta3DirPatcher._find_file_delta`:
staging paths are joined from the roots and the entry's relative path, and
the old path is dropped (set to `None`) when the staged old file is not a
regular file. -/
def find_file_delta_command (old_root new_root target_root filename : PyStr)
    (old_staged_is_regular_file : Bool) : List PyStr :=
  let old_path := pyJoin old_root filename
  let new_path := pyJoin new_root filename
  let target_path := pyJoin target_root filename
  XDelta3Impl_diff
    (if old_staged_is_regular_file then some old_path else none)
    new_path target_path

/-! ## C10: `XDelta3ZipImpl` listings (lines 720-779)

`XDelta3ZipImpl._add_listing_object` always calls the setter as
`setter_func(basename, zip_obj, None, None, None, None, None, False)` —
the `(name, data, permissions, uname, uid, gname, gid, is_link)` signature
of `DirListing.set_metadata` / `DirListing.add_file` — so every enumerated
zip entry records no permissions, no uid/gid, no symbolic names, and is
never a symlink.  `members` walks `namelist()` sorted by length, storing a
dir listing for names ending in the separator (key = name with trailing
separators stripped) and a file entry otherwise; parent listings are looked
up in the mapping (a missing parent is a `KeyError`). -/

/-- Python `s.rstrip(path.sep)`: drop all trailing separators. -/
def pyRstripSep (s : PyStr) : PyStr :=
  (s.reverse.dropWhile (fun c => c = '/')).reverse

/-- `posixpath.dirname(p)`: everything up to the last separator, with
trailing separators stripped unless the head is all separators. -/
def pyDirname (p : PyStr) : PyStr :=
  let head := (p.reverse.dropWhile (fun c => c ≠ '/')).reverse
  if head ≠ [] ∧ head.any (fun c => c ≠ '/') then
    (head.reverse.dropWhile (fun c => c = '/')).reverse
  else head

/-- Semantic metadata carried by a tree node (`DirListing.set_metadata` /
`DirListing.add_file` fields). -/
structure ListingMeta where
  permissions : Option Int
  uname : Option PyStr
  uid : Option Int
  gname : Option PyStr
  gid : Option Int
  is_link : Bool
  deriving DecidableEq

/-- A node stored in the zip adapter's flat mapping. -/
inductive ZipNode
  | rootNode
  | dirNode (meta : ListingMeta)
  | fileNode (meta : ListingMeta)
  deriving DecidableEq

/-- The metadata `XDelta3ZipImpl._add_listing_object` always passes:
`(..., None, None, None, None, None, False)`. -/
def zip_add_listing_meta : ListingMeta :=
  { permissions := none, uname := none, uid := none,
    gname := none, gid := none, is_link := false }

/-- One iteration of the `for name in sorted_names` loop of
`XDelta3ZipImpl.members`; `Except.error` models the `KeyError` raised when
a parent listing is missing from the mapping. -/
def zip_members_step (items : List (Option PyStr × ZipNode))
    (name : PyStr) : Except Unit (List (Option PyStr × ZipNode)) :=
  if endswith name pySep then
    let fixed := pyRstripSep name
    let items' := items ++ [(some fixed, ZipNode.dirNode zip_add_listing_meta)]
    let parentD := pyDirname fixed
    let parent : Option PyStr := if parentD.isEmpty then none else some parentD
    if (items'.map Prod.fst).contains parent then Except.ok items'
    else Except.error ()
  else
    let dirD := pyDirname name
    let dkey : Option PyStr := if dirD.isEmpty then none else some dirD
    if (items.map Prod.fst).contains dkey then
      Except.ok (items ++ [(some name, ZipNode.fileNode zip_add_listing_meta)])
    else Except.error ()

/-- Python `sorted(names, key=len)`: a stable sort by string length. -/
def pySortedByLen (names : List PyStr) : List PyStr :=
  names.insertionSort (fun a b => a.length ≤ b.length)

/-- `XDelta3ZipImpl.members`: the flat mapping built from `namelist()`
(keys in insertion order, root keyed by `None`). -/
def XDelta3ZipImpl_members (names : List PyStr) :
    Except Unit (List (Option PyStr × ZipNode)) :=
  (pySortedByLen names).foldlM zip_members_step [(none, ZipNode.rootNode)]

/-! ## C7: removal scheduling order in apply (lines 1186-1210)

```
removed_items = []
for old_file in old_archive.list_items().keys():
    if old_file and old_file not in files_in_patch:
        removed_items.append(old_file)
removed_items.sort(key=len, reverse=True)
for removed_item in removed_items: runner.add_task(remove_item, ...)
```
Removal tasks are submitted in the order of the length-descending sorted
list. -/

/-- The `removed_items` list before sorting: truthy old-snapshot keys not
among `files_in_patch`, in mapping order. -/
def removed_items (old_keys : List (Option PyStr))
    (files_in_patch : List PyStr) : List PyStr :=
  old_keys.filterMap (fun o =>
    match o with
    | none => none
    | some s =>
        if pyTruthy (some s) && !(files_in_patch.contains s) then some s
        else none)

/-- Length-descending comparison, the order of
`sort(key=len, reverse=True)`. -/
def lenDescRel (a b : PyStr) : Prop := b.length ≤ a.length

instance : DecidableRel lenDescRel := fun a b => Nat.decLe b.length a.length

instance : IsTotal PyStr lenDescRel :=
  ⟨fun a b => Or.symm (Nat.le_total a.length b.length)⟩

instance : IsTrans PyStr lenDescRel :=
  ⟨fun _ _ _ hab hbc => le_trans hbc hab⟩

/-- `removed_items.sort(key=len, reverse=True)`: the submission order of
the removal tasks (a stable descending sort by path length). -/
def removed_items_sorted (old_keys : List (Option PyStr))
    (files_in_patch : List PyStr) : List PyStr :=
  (removed_items old_keys files_in_patch).insertionSort lenDescRel

/-- `child` is a strict descendant of `anc`: it starts with `anc` followed
by the path separator. -/
def isDescendantOf (child anc : PyStr) : Bool :=
  startswith child (anc ++ pySep)

/-! ## C4: the tar adapter's flat mapping (lines 514-530, 538-604)

`XDelta3TarImpl.members` partitions the archive members into folders
(keys are the names with trailing separators stripped; `tarfile` already
strips them on read) and files, inserts the folders sorted ascending by
name length (`sorted(folders, key=lambda f: len(f[0]))`) — linking a folder
to its parent only `if parent_dir in items` — then inserts the files,
calling `_create_dir_structure_to` when a file's parent key is absent.
Finally the mapping is re-keyed in member order (root first, synthesized
keys appended).  Paths are modelled as their separator-split segment lists;
`path.dirname` of a key is its segment list without the last segment
(`None` when empty), and `target_path.split(path.sep)` is the segment list
itself.  Only the key set of the mapping is modelled (the placeholder
`DirListing`s carry no metadata). -/

/-- A key of the tar adapter's flat mapping: `none` is the root, otherwise
the member path as segments. -/
abbrev TarKey := Option (List PyStr)

/-- A tar archive member: its path (segments; `tarfile` yields directory
names without the trailing separator) and whether it is a directory. -/
structure TarMember where
  name : List PyStr
  isdir : Bool
  deriving DecidableEq

/-- `len(...)` of the joined path string: total segment length plus the
separators between segments — the sort key used for the folder pass. -/
def segPathLen (p : List PyStr) : Nat :=
  (p.map List.length).sum + (p.length - 1)

/-- The mapping key of `path.dirname` of a path: `None` for a top-level
name (`if not parent_dir: parent_dir = None`), otherwise the segments
without the last one. -/
def parentKey (p : List PyStr) : TarKey :=
  if p.dropLast.isEmpty then none else some p.dropLast

/-- One iteration of the `for index, segment in enumerate(...)` loop of
`_create_dir_structure_to`: insert the `(i+1)`-segment prefix of the
target when it is not yet a key (`items[segment_path] = subdir_obj`). -/
def create_dir_step (target : List PyStr) (ks : List TarKey) (i : Nat) :
    List TarKey :=
  if ks.contains (some (target.take (i + 1))) then ks
  else ks ++ [some (target.take (i + 1))]

/-- `XDelta3TarImpl._create_dir_structure_to` (key-set view): walk the
segment prefixes of `target_path` from trunk to leaf, inserting every
missing prefix as a placeholder key. -/
def create_dir_structure_to (items : List TarKey) (target : List PyStr) :
    List TarKey :=
  (List.range target.length).foldl (create_dir_step target) items

/-- The folder pass of `members`: `items = {None: DirListing(...)}`, then
`items[folder] = current_dir` for each sorted folder (dict assignment: the
key set gains the folder name). -/
def tar_members_after_dirs (sorted_dirs : List (List PyStr)) :
    List TarKey :=
  sorted_dirs.foldl
    (fun ks f => if ks.contains (some f) then ks else ks ++ [some f])
    [none]

/-- The `if dir_name not in items.keys(): _create_dir_structure_to(...)`
guard of the file pass: when the file's parent key (`dir_name`, `None` for
top level) is absent, synthesize the missing structure. -/
def tar_members_ensure_parent (ks : List TarKey) (f : List PyStr) :
    List TarKey :=
  if ks.contains (parentKey f) then ks
  else create_dir_structure_to ks f.dropLast

/-- One iteration of the file pass of `members`: ensure the parent key
exists, then `items[filename] = file_obj` (dict assignment: the key set
gains the file name). -/
def tar_members_files_step (ks : List TarKey) (f : List PyStr) :
    List TarKey :=
  if (tar_members_ensure_parent ks f).contains (some f) then
    tar_members_ensure_parent ks f
  else tar_members_ensure_parent ks f ++ [some f]

/-- The key set of `items` after both passes of `XDelta3TarImpl.members`
(before the re-keying into `ordered_items`). -/
def tar_members_keys_pre (members : List TarMember) : List TarKey :=
  ((members.filter (fun m => !m.isdir)).map (fun m => m.name)).foldl
    tar_members_files_step
    (tar_members_after_dirs
      (((members.filter (fun m => m.isdir)).map (fun m => m.name)).insertionSort
        (fun a b => segPathLen a ≤ segPathLen b)))

/-- The final `ordered_items` key list: root first, then the member names
in archive order (each popped from `items`), then the leftover manually
created keys (`ordered_items.update(items)`). -/
def tar_members_keys (members : List TarMember) : List TarKey :=
  [none] ++ members.map (fun m => some m.name) ++
    (tar_members_keys_pre members).filter
      (fun k => !(k == none) &&
        !((members.map (fun m => some m.name)).contains k))

/-! ## C1: the diff/apply round trip (lines 900-1019, 1022-1096, 1125-1235)

The round trip is modelled per relative path over snapshots of regular
files and symlinks (the claim's conclusions concern file contents, symlink
targets and file permission bits):

* `diff` (lines 1052-1072 + `_find_file_delta`, 900-964) walks the new
  snapshot's mapping; a staged symlink is mirrored verbatim (no codec); a
  regular file is encoded with `xdelta3 -f -e [-s old] new target` where
  the `-s` source is the staged old file if the old mapping has a regular
  file at the same path; `copy_attributes` then puts the staged new mode on
  the patch file, which the bundle tar records.
* `apply` (lines 1125-1235 + `_apply_file_delta`, 966-1019) expands each
  bundle entry; symlinks are recreated; a regular patch is decoded with
  `xdelta3 -f -d [-s old_dir/rel] patch target` — the source being the old
  tree's regular file at the same relative path — and then
  `copy_attributes_from_archive` chmods the target to the bundle entry's
  recorded mode *only when that mode is truthy (nonzero)*; otherwise the
  target keeps whatever mode the codec subprocess created it with
  (`creationMode` below).

The external codec is abstracted by its contract (decoding against the
same source reproduces the data); file permission bits are those the
adapter's staging reproduces (filesystem `copy2` and tar extraction
preserve the stored mode). -/

/-- Raw file contents, as a byte list. -/
abbrev Bytes := List Nat

/-- The external XDelta3 codec: `encode src data` for
`xdelta3 -f -e [-s src]`, `decode src patch` for `xdelta3 -f -d [-s src]`. -/
structure Codec where
  encode : Option Bytes → Bytes → Bytes
  decode : Option Bytes → Bytes → Bytes

/-- The codec contract the engine relies on: decoding a patch against the
same source it was encoded with reproduces the data. -/
def Codec.ok (c : Codec) : Prop :=
  ∀ src data, c.decode src (c.encode src data) = data

/-- A snapshot entry: a regular file (contents, and the permission bits
staging reproduces) or a symlink (target string). -/
inductive SnapEntry
  | file (contents : Bytes) (perms : Int)
  | link (target : PyStr)
  deriving DecidableEq

/-- A snapshot: the flat mapping restricted to file and symlink entries. -/
abbrev Snapshot := List (PyStr × SnapEntry)

/-- The codec source for path `p`: the old snapshot's contents at `p` when
that entry is a regular file (`path.isfile` on the staged old file in
`diff`, on `old_dir/rel` in `apply`), else `None` (no `-s`). -/
def oldSource (old : Snapshot) (p : PyStr) : Option Bytes :=
  match old.lookup p with
  | some (SnapEntry.file c _) => some c
  | _ => none

/-- An entry of the bundle's `xdelta/` tree. -/
inductive BundleEntry
  | patch (data : Bytes) (perms : Int)
  | link (target : PyStr)
  deriving DecidableEq

/-- The per-entry work of `_find_file_delta`. -/
def find_file_delta (c : Codec) (old : Snapshot) (p : PyStr) :
    SnapEntry → BundleEntry
  | SnapEntry.link t => BundleEntry.link t
  | SnapEntry.file contents perms =>
      BundleEntry.patch (c.encode (oldSource old p) contents) perms

/-- `XDelta3DirPatcher.diff`: the bundle's `xdelta/` tree, one entry per
new-snapshot mapping entry. -/
def XDelta3DirPatcher_diff (c : Codec) (old new_snap : Snapshot) :
    List (PyStr × BundleEntry) :=
  new_snap.map (fun pe => (pe.1, find_file_delta c old pe.1 pe.2))

/-- An entry of the reconstructed target tree. -/
inductive TargetEntry
  | file (contents : Bytes) (perms : Int)
  | link (target : PyStr)
  deriving DecidableEq

/-- The per-entry work of `_apply_file_delta` followed by
`copy_attributes_from_archive`: the chmod happens only for a truthy
(nonzero) recorded mode, else the codec subprocess's creation mode
remains. -/
def apply_file_delta (c : Codec) (old : Snapshot) (creationMode : Int)
    (p : PyStr) : BundleEntry → TargetEntry
  | BundleEntry.link t => TargetEntry.link t
  | BundleEntry.patch data perms =>
      TargetEntry.file (c.decode (oldSource old p) data)
        (if perms ≠ 0 then perms else creationMode)

/-- `XDelta3DirPatcher.apply` over the bundle's `xdelta/` entries, into a
fresh target directory. -/
def XDelta3DirPatcher_apply (c : Codec) (old : Snapshot)
    (bundle : List (PyStr × BundleEntry)) (creationMode : Int) :
    List (PyStr × TargetEntry) :=
  bundle.map (fun pe => (pe.1, apply_file_delta c old creationMode pe.1 pe.2))

/-- The target tree the round-trip claim expects: `B` itself, entry for
entry (identical contents, symlink targets, and permission bits). -/
def snapshotAsTarget (s : Snapshot) : List (PyStr × TargetEntry) :=
  s.map (fun pe => (pe.1,
    match pe.2 with
    | SnapEntry.file contents perms => TargetEntry.file contents perms
    | SnapEntry.link t => TargetEntry.link t))

/-- The identity codec; it satisfies the codec contract. -/
def idCodec : Codec := ⟨fun _ d => d, fun _ d => d⟩

end XD3

namespace XD3

/-! ## Theorems for C1 -/

/-- **C1, counterexample.**  With a correct codec (the identity codec), an
empty old snapshot and a new snapshot holding one regular file of mode
`0`, the reconstructed tree is not byte-and-mode identical to `B`: the
bundle records mode `0`, `copy_attributes_from_archive` skips the chmod
(`if file_obj.permissions:` is falsy for `0`), and the file keeps the
codec subprocess's creation mode (here `0o644 = 420`). -/
theorem diff_apply_not_roundtrip :
    idCodec.ok ∧
      XDelta3DirPatcher_apply idCodec []
          (XDelta3DirPatcher_diff idCodec []
            [("a".data, SnapEntry.file [104] 0)]) 420 ≠
        snapshotAsTarget [("a".data, SnapEntry.file [104] 0)] :=
  ⟨fun _ _ => rfl, by decide⟩

/-- **C1, amended.**  For any correct codec, old snapshot, new snapshot
(of regular files and symlinks) and codec creation mode: applying the
bundle produced by `diff` yields a tree with exactly `B`'s relative paths,
byte-identical regular-file contents, and identical symlink targets; the
permission bits equal `B`'s recorded bits on every file whose recorded
bits are nonzero, while a file recorded with mode `0` keeps the codec
subprocess's creation mode. -/
theorem diff_apply_characterization (c : Codec) (hc : c.ok)
    (old new_snap : Snapshot) (creationMode : Int) :
    XDelta3DirPatcher_apply c old
        (XDelta3DirPatcher_diff c old new_snap) creationMode =
      new_snap.map (fun pe => (pe.1,
        match pe.2 with
        | SnapEntry.file contents perms =>
            TargetEntry.file contents
              (if perms ≠ 0 then perms else creationMode)
        | SnapEntry.link t => TargetEntry.link t)) := by
  unfold XDelta3DirPatcher_apply XDelta3DirPatcher_diff
  rw [List.map_map]
  apply List.map_congr_left
  intro pe hpe
  obtain ⟨p, e⟩ := pe
  cases e with
  | link t => rfl
  | file contents perms =>
    simp only [Function.comp_apply, find_file_delta, apply_file_delta]
    rw [hc]

/-- **C1, amended, witness.**  Concrete instance: one file `a` with
contents `[104]` and mode `420`; the round trip reproduces contents and
mode. -/
theorem diff_apply_characterization_witness :
    XDelta3DirPatcher_apply idCodec []
        (XDelta3DirPatcher_diff idCodec []
          [("a".data, SnapEntry.file [104] 420)]) 384 =
      [("a".data,
        TargetEntry.file [104] (if (420 : Int) ≠ 0 then 420 else 384))] :=
  diff_apply_characterization idCodec (fun _ _ => rfl) []
    [("a".data, SnapEntry.file [104] 420)] 384

/-! ## Theorems for C2 -/

/-- **C2, counterexample.**  With bundle entries `{ "xdeltaX" }` and the
default `patch_root = "xdelta"`, the code schedules `"xdeltaX"` (plain
`startswith` match) although it neither equals `"xdelta"` nor starts with
`"xdelta/"`; the scheduled set differs from the set the claim describes. -/
theorem apply_patches_not_spec_partition :
    apply_patches [some "xdeltaX".data] "xdelta".data ≠
      specPatches [some "xdeltaX".data] "xdelta".data := by decide

/-- **C2, amended.**  The scheduled apply tasks are exactly the truthy bundle
keys that start with `patch_root` as a plain string prefix (no separator
check); every entry satisfying the specification's partition predicate is
among them, but not conversely. -/
theorem apply_patches_characterization
    (items : List (Option PyStr)) (root : PyStr) (p : PyStr) :
    (p ∈ apply_patches items root ↔
      (some p ∈ items ∧ pyTruthy (some p) = true ∧ startswith p root = true)) ∧
    (specPatchPredicate root p = true → startswith p root = true) := by
  constructor
  · constructor
    · intro hp
      rcases List.mem_filterMap.mp hp with ⟨q, hq, hval⟩
      cases q with
      | none => simp at hval
      | some s =>
        by_cases hc : pyTruthy (some s) && startswith s root
        · simp only [hc, if_pos] at hval
          obtain rfl : s = p := by
            by_contra hne
            simp [hne] at hval
          rw [Bool.and_eq_true] at hc
          exact ⟨hq, hc.1, hc.2⟩
        · simp [hc] at hval
    · rintro ⟨hmem, h1, h2⟩
      refine List.mem_filterMap.mpr ⟨some p, hmem, ?_⟩
      simp [h1, h2]
  · intro hspec
    unfold specPatchPredicate at hspec
    rw [Bool.or_eq_true] at hspec
    rcases hspec with heq | hpre
    · have : p = root := eq_of_beq heq
      subst this
      exact List.isPrefixOf_iff_prefix.mpr List.prefix_rfl
    · have h1 : (root ++ pySep) <+: p := List.isPrefixOf_iff_prefix.mp hpre
      have h2 : root <+: root ++ pySep := List.prefix_append _ _
      exact List.isPrefixOf_iff_prefix.mpr (h2.trans h1)

/-- **C2, amended, witness.**  Concrete instance: with entries
`{ "xdelta/a" }` and root `"xdelta"`, the entry is scheduled. -/
theorem apply_patches_characterization_witness :
    "xdelta/a".data ∈ apply_patches [some "xdelta/a".data] "xdelta".data :=
  ((apply_patches_characterization [some "xdelta/a".data] "xdelta".data
      "xdelta/a".data).1).mpr (by decide)

/-! ## Theorems for C3 -/

/-- **C3, counterexample.**  With two submitted tasks whose completion order
is (failure, success), `join_all` re-raises after awaiting only the first
future: it does not drain the remaining task before returning, refuting the
claim that all submitted tasks have settled when the failure is re-raised. -/
theorem join_all_does_not_drain :
    ¬ ((join_all [some 0, (none : Option Nat)]).submissionGateClosed = true ∧
       (join_all [some 0, (none : Option Nat)]).settledBeforeReturn =
         [some 0, (none : Option Nat)].length ∧
       (join_all [some 0, (none : Option Nat)]).raised =
         [some 0, (none : Option Nat)].findSome? id) := by decide

/-- The completion loop re-raises the first exception in completion order. -/
lemma join_all_loop_snd {ε : Type} (l : List (Option ε)) :
    (join_all_loop l).2 = l.findSome? id := by
  induction l with
  | nil => rfl
  | cons hd tl ih =>
    cases hd with
    | none => simpa [join_all_loop, List.findSome?] using ih
    | some e => simp [join_all_loop, List.findSome?]

/-- The completion loop awaits every clean completion preceding the first
failure, plus the failed future itself when one exists. -/
lemma join_all_loop_fst {ε : Type} (l : List (Option ε)) :
    (join_all_loop l).1 =
      (l.takeWhile Option.isNone).length +
        (if (l.findSome? id).isSome then 1 else 0) := by
  induction l with
  | nil => rfl
  | cons hd tl ih =>
    cases hd with
    | none =>
      simp only [join_all_loop, List.findSome?, List.takeWhile, ih]
      simp [Option.isNone]
      omega
    | some e => simp [join_all_loop, List.findSome?, List.takeWhile, Option.isNone]

/-- **C3, amended.**  `join_all` closes the submission gate and re-raises the
first failure observed in completion order, but it returns as soon as that
failure is observed: the number of futures awaited is the count of initially
clean completions, plus one for the failed future when there is one (all
tasks are drained only in the failure-free case). -/
theorem join_all_characterization {ε : Type} (l : List (Option ε)) :
    (join_all l).submissionGateClosed = true ∧
    (join_all l).raised = l.findSome? id ∧
    (join_all l).settledBeforeReturn =
      (l.takeWhile Option.isNone).length +
        (if (l.findSome? id).isSome then 1 else 0) :=
  ⟨rfl, join_all_loop_snd l, join_all_loop_fst l⟩

/-! ## Theorems for C5 -/

/-- **C5, counterexample.**  A bundle entry recording mode `0`, uid `0` and
gid `5` produces no metadata operation at all: the recorded permission bits
are not chmod-ed and no `lchown` is attempted, refuting the claim that the
operations happen "including when the recorded mode, uid or gid is 0". -/
theorem copy_attributes_from_archive_zero_skipped :
    copy_attributes_from_archive ⟨some 0, some 0, some 5⟩
      LchownOutcome.ok false = Except.ok [] := rfl

/-- A chmod operation appears in the chmod step exactly for recorded,
nonzero permission bits. -/
lemma chmodOp_mem_chmod_ops (p : Option Int) (mode : Int) :
    MetaOp.chmodOp mode ∈ chmod_ops p ↔ p = some mode ∧ mode ≠ 0 := by
  rcases p with _ | m0
  · simp [chmod_ops]
  · by_cases hm : m0 = 0
    · subst hm
      simp [chmod_ops]
      rintro rfl
      simp
    · simp only [chmod_ops, if_pos hm, List.mem_singleton]
      constructor
      · rintro h
        cases h
        exact ⟨rfl, hm⟩
      · rintro ⟨h, _⟩
        cases h
        rfl

/-- The chmod step never performs an `lchown`. -/
lemma lchownOp_not_mem_chmod_ops (p : Option Int) (u g : Int) :
    MetaOp.lchownOp u g ∉ chmod_ops p := by
  rcases p with _ | m0
  · simp [chmod_ops]
  · by_cases hm : m0 = 0 <;> simp [chmod_ops, hm]

/-- **C5, amended.**  `copy_attributes_from_archive` chmods the target
exactly when the recorded permission bits are present and nonzero, and
attempts `lchown` exactly when both recorded uid and gid are present and
nonzero; a `PermissionError` from `lchown` propagates exactly when
`ignore_euid` is unset, and is swallowed otherwise. -/
theorem copy_attributes_from_archive_characterization
    (m : BundleEntryMeta) (oc : LchownOutcome) (ig : Bool) :
    (copy_attributes_from_archive m oc ig = Except.error () ↔
      (∃ u g, m.uid = some u ∧ m.gid = some g ∧ u ≠ 0 ∧ g ≠ 0) ∧
        oc = LchownOutcome.permissionDenied ∧ ig = false) ∧
    (∀ ops, copy_attributes_from_archive m oc ig = Except.ok ops →
      (∀ mode, MetaOp.chmodOp mode ∈ ops ↔
          m.permissions = some mode ∧ mode ≠ 0) ∧
      (∀ u g, MetaOp.lchownOp u g ∈ ops ↔
          m.uid = some u ∧ m.gid = some g ∧ u ≠ 0 ∧ g ≠ 0 ∧
            oc = LchownOutcome.ok)) := by
  obtain ⟨mp, mu, mg⟩ := m
  unfold copy_attributes_from_archive
  rcases mu with _ | u <;> rcases mg with _ | g <;> dsimp only
  · refine ⟨by simp, ?_⟩
    rintro ops hops
    cases hops
    refine ⟨fun mode => chmodOp_mem_chmod_ops mp mode, fun u g => ?_⟩
    simp [lchownOp_not_mem_chmod_ops]
  · refine ⟨by simp, ?_⟩
    rintro ops hops
    cases hops
    refine ⟨fun mode => chmodOp_mem_chmod_ops mp mode, fun u' g' => ?_⟩
    simp [lchownOp_not_mem_chmod_ops]
  · refine ⟨by simp, ?_⟩
    rintro ops hops
    cases hops
    refine ⟨fun mode => chmodOp_mem_chmod_ops mp mode, fun u' g' => ?_⟩
    simp [lchownOp_not_mem_chmod_ops]
  · by_cases hug : u ≠ 0 ∧ g ≠ 0
    · rw [if_pos hug]
      cases oc with
      | ok =>
        refine ⟨by simp, ?_⟩
        rintro ops hops
        cases hops
        constructor
        · intro mode
          simp only [List.mem_append, List.mem_singleton]
          rw [chmodOp_mem_chmod_ops]
          simp
        · intro u' g'
          simp only [List.mem_append, List.mem_singleton]
          constructor
          · rintro (h | h)
            · exact absurd h (lchownOp_not_mem_chmod_ops mp u' g')
            · injection h with e1 e2
              subst e1
              subst e2
              exact ⟨rfl, rfl, hug.1, hug.2, trivial⟩
          · rintro ⟨h1, h2, -, -, -⟩
            injection h1 with e1
            injection h2 with e2
            subst e1
            subst e2
            exact Or.inr rfl
      | permissionDenied =>
        cases ig with
        | false =>
          rw [if_neg (by simp)]
          refine ⟨?_, ?_⟩
          · simp only [eq_self_iff_true, and_true, true_iff]
            exact ⟨u, g, rfl, rfl, hug.1, hug.2⟩
          · rintro ops hops
            cases hops
        | true =>
          rw [if_pos rfl]
          refine ⟨by simp, ?_⟩
          rintro ops hops
          cases hops
          refine ⟨fun mode => chmodOp_mem_chmod_ops mp mode, fun u' g' => ?_⟩
          simp [lchownOp_not_mem_chmod_ops]
      | nameUndefined =>
        refine ⟨by simp, ?_⟩
        rintro ops hops
        cases hops
        refine ⟨fun mode => chmodOp_mem_chmod_ops mp mode, fun u' g' => ?_⟩
        simp [lchownOp_not_mem_chmod_ops]
    · rw [if_neg hug]
      refine ⟨?_, ?_⟩
      · constructor
        · rintro h
          cases h
        · rintro ⟨⟨u', g', h1, h2, h3, h4⟩, _, _⟩
          cases h1
          cases h2
          exact absurd ⟨h3, h4⟩ hug
      · rintro ops hops
        cases hops
        refine ⟨fun mode => chmodOp_mem_chmod_ops mp mode, fun u' g' => ?_⟩
        constructor
        · intro h
          exact absurd h (lchownOp_not_mem_chmod_ops mp u' g')
        · rintro ⟨h1, h2, h3, h4, -⟩
          injection h1 with e1
          injection h2 with e2
          subst e1
          subst e2
          exact absurd ⟨h3, h4⟩ hug

/-- **C5, amended, witness.**  Concrete instance: mode `420`, uid/gid
`1000/1000`, successful `lchown`: the chmod to `420` is among the performed
operations. -/
theorem copy_attributes_from_archive_characterization_witness :
    MetaOp.chmodOp 420 ∈
      [MetaOp.chmodOp 420, MetaOp.lchownOp 1000 1000] :=
  (((copy_attributes_from_archive_characterization
      ⟨some 420, some 1000, some 1000⟩ LchownOutcome.ok false).2
      [MetaOp.chmodOp 420, MetaOp.lchownOp 1000 1000] rfl).1
      420).mpr (by norm_num)

/-! ## Theorems for C6 -/

/-- **C6, counterexample.**  On Windows the euid probe is `lambda: None`,
and `None != 0` holds, so with `ignore_euid` unset the check raises: it is
not a no-op there. -/
theorem check_euid_windows_raises :
    check_euid false none = Except.error () := rfl

/-- **C6, amended.**  `check_euid` raises exactly when `ignore_euid` is
unset and the probed euid is not `0`; on POSIX the probe is the real
effective uid, while on Windows it is the stub `None` (which is never `0`,
so the check raises whenever `ignore_euid` is unset).  When the check
raises, `run` opens no archive. -/
theorem check_euid_characterization (ig : Bool) (euid : Option Int) :
    (check_euid ig euid = Except.error () ↔ ig = false ∧ euid ≠ some 0) ∧
    ((run_apply ig euid).2 = true →
      RunEvent.archiveOpen ∉ (run_apply ig euid).1) := by
  constructor
  · unfold check_euid
    by_cases h : (!ig && euid != some 0) = true
    · rw [if_pos h]
      rw [Bool.and_eq_true] at h
      obtain ⟨h1, h2⟩ := h
      rw [Bool.not_eq_true'] at h1
      refine ⟨fun _ => ⟨h1, ?_⟩, fun _ => rfl⟩
      exact bne_iff_ne.mp h2
    · rw [if_neg h]
      constructor
      · rintro hco
        cases hco
      · rintro ⟨hig, hne⟩
        exact absurd (by simp [hig, bne_iff_ne, hne]) h
  · intro herr
    cases hck : check_euid ig euid with
    | error e =>
      simp only [run_apply, hck]
      decide
    | ok v =>
      exfalso
      simp only [run_apply, hck] at herr
      exact Bool.false_ne_true herr

/-- **C6, amended, witness.**  Concrete instance: Windows probe (`none`),
`ignore_euid` unset: the run fails and no archive-open event occurs. -/
theorem check_euid_characterization_witness :
    RunEvent.archiveOpen ∉ (run_apply false none).1 :=
  (check_euid_characterization false none).2 (by decide)

/-! ## Theorems for C8 -/

/-- **C8, confirmed.**  Adapter selection returns the first probe match in
the order filesystem → tar → zip: a directory selects the filesystem
adapter, a regular file sniffing as tar selects the tar adapter, a regular
file sniffing as zip (and not as tar) selects the zip adapter, and when no
probe accepts the path the selection fails (`RuntimeError`, the
`UnsupportedArchive` kind). -/
theorem get_archive_instance_characterization (k : PathKind) :
    (get_archive_instance k =
      (match subclassProbes.find? (fun c => c.2 k) with
        | some c => Except.ok c.1
        | none => Except.error ())) ∧
    (k = PathKind.directory →
      get_archive_instance k = Except.ok AdapterKind.fs) ∧
    (∀ z, k = PathKind.regularFile true z →
      get_archive_instance k = Except.ok AdapterKind.tar) ∧
    (k = PathKind.regularFile false true →
      get_archive_instance k = Except.ok AdapterKind.zip) ∧
    (XDelta3FsImpl_can_open k = false → XDelta3TarImpl_can_open k = false →
      XDelta3ZipImpl_can_open k = false →
      get_archive_instance k = Except.error ()) := by
  cases k with
  | directory =>
    refine ⟨rfl, fun _ => rfl, fun z h => ?_, fun h => ?_, fun h _ _ => ?_⟩
    · cases h
    · cases h
    · cases h
  | regularFile t z =>
    cases t <;> cases z
    · refine ⟨rfl, fun h => ?_, fun z' h => ?_, fun h => ?_,
        fun _ _ _ => rfl⟩
      · cases h
      · injection h with h1 h2
        cases h1
      · injection h with h1 h2
        cases h2
    · refine ⟨rfl, fun h => ?_, fun z' h => ?_, fun _ => rfl,
        fun _ _ h3 => ?_⟩
      · cases h
      · injection h with h1 h2
        cases h1
      · cases h3
    · refine ⟨rfl, fun h => ?_, fun z' _ => rfl, fun h => ?_,
        fun _ h2 _ => ?_⟩
      · cases h
      · injection h with h1 h2
        cases h1
      · cases h2
    · refine ⟨rfl, fun h => ?_, fun z' _ => rfl, fun h => ?_,
        fun _ h2 _ => ?_⟩
      · cases h
      · injection h with h1 h2
        cases h1
      · cases h2
  | absent =>
    refine ⟨rfl, fun h => ?_, fun z h => ?_, fun h => ?_, fun _ _ _ => rfl⟩
    · cases h
    · cases h
    · cases h

/-- **C8, witness.**  A directory selects the filesystem adapter. -/
theorem get_archive_instance_characterization_witness :
    get_archive_instance PathKind.directory = Except.ok AdapterKind.fs :=
  (get_archive_instance_characterization PathKind.directory).2.1 rfl

/-! ## Theorems for C9 -/

/-- `posixpath.join` yields a nonempty path when the joined component is
nonempty. -/
lemma pyJoin_ne_nil (a b : PyStr) (hb : b ≠ []) : pyJoin a b ≠ [] := by
  unfold pyJoin
  split
  · exact hb
  · split <;>
    · intro h
      rcases List.append_eq_nil.mp h with ⟨-, h2⟩
      exact hb h2

/-- **C9, confirmed.**  For every regular-file diff task with a nonempty
relative path (the diff loop skips falsy keys), the codec is invoked with
exactly the argument vector
`lib/xdelta3 -f -e [-s old_path] new_path target_path`, where the
`-s old_path` pair is present if and only if the staged old file is a
regular file. -/
theorem find_file_delta_command_spec
    (old_root new_root target_root filename : PyStr) (hf : filename ≠ [])
    (old_staged_is_regular_file : Bool) :
    find_file_delta_command old_root new_root target_root filename
        old_staged_is_regular_file =
      ["lib/xdelta3".data, "-f".data, "-e".data] ++
        (if old_staged_is_regular_file
          then ["-s".data, pyJoin old_root filename] else []) ++
        [pyJoin new_root filename, pyJoin target_root filename] := by
  cases old_staged_is_regular_file with
  | false => rfl
  | true =>
    unfold find_file_delta_command XDelta3Impl_diff
    have h : pyJoin old_root filename ≠ [] := pyJoin_ne_nil _ _ hf
    simp only [pyTruthy, if_true]
    rw [if_pos]
    rw [Bool.not_eq_true']
    exact List.isEmpty_eq_false.mpr h

/-- **C9, witness.**  Concrete instance: diffing `a.txt` with a staged old
regular file present includes the `-s` pair. -/
theorem find_file_delta_command_spec_witness :
    find_file_delta_command "old".data "new".data "t".data "a.txt".data
        true =
      ["lib/xdelta3".data, "-f".data, "-e".data] ++
        (if true then ["-s".data, pyJoin "old".data "a.txt".data]
          else []) ++
        [pyJoin "new".data "a.txt".data, pyJoin "t".data "a.txt".data] :=
  find_file_delta_command_spec "old".data "new".data "t".data
    "a.txt".data (by decide) true

/-! ## Theorems for C10 -/

/-- Any node that one iteration of the zip `members` loop adds carries the
all-absent metadata. -/
lemma zip_members_step_mem {items items' : List (Option PyStr × ZipNode)}
    {name : PyStr} (h : zip_members_step items name = Except.ok items')
    {kn : Option PyStr × ZipNode} (hmem : kn ∈ items') :
    kn ∈ items ∨ kn.2 = ZipNode.dirNode zip_add_listing_meta ∨
      kn.2 = ZipNode.fileNode zip_add_listing_meta := by
  simp only [zip_members_step] at h
  split at h
  · split at h <;> split at h <;>
      first
        | (cases h
           rcases List.mem_append.mp hmem with h1 | h1
           · exact Or.inl h1
           · rcases List.mem_singleton.mp h1 with rfl
             exact Or.inr (Or.inl rfl))
        | cases h
  · split at h <;> split at h <;>
      first
        | (cases h
           rcases List.mem_append.mp hmem with h1 | h1
           · exact Or.inl h1
           · rcases List.mem_singleton.mp h1 with rfl
             exact Or.inr (Or.inr rfl))
        | cases h

/-- Fold invariant: everything in the built mapping is either in the
initial mapping or a node added with the all-absent metadata. -/
lemma zip_members_foldl_mem :
    ∀ (l : List PyStr) (items items' : List (Option PyStr × ZipNode)),
      l.foldlM zip_members_step items = Except.ok items' →
      ∀ kn ∈ items',
        kn ∈ items ∨ kn.2 = ZipNode.dirNode zip_add_listing_meta ∨
          kn.2 = ZipNode.fileNode zip_add_listing_meta := by
  intro l
  induction l with
  | nil =>
    intro items items' h kn hmem
    cases h
    exact Or.inl hmem
  | cons hd tl ih =>
    intro items items' h kn hmem
    rw [List.foldlM_cons] at h
    cases hstep : zip_members_step items hd with
    | error e =>
      rw [hstep] at h
      cases h
    | ok mid =>
      rw [hstep] at h
      have h' : tl.foldlM zip_members_step mid = Except.ok items' := h
      rcases ih mid items' h' kn hmem with h1 | h1
      · exact zip_members_step_mem hstep h1
      · exact Or.inr h1

/-- **C10, confirmed.**  Every (non-root) entry the zip adapter enumerates
has absent permissions, uid, gid, uname and gname, and `is_link = false`:
a zip-backed snapshot contributes no symlinks, permission bits, or
ownership to diff or apply. -/
theorem XDelta3ZipImpl_members_no_metadata
    (names : List PyStr) (out : List (Option PyStr × ZipNode))
    (h : XDelta3ZipImpl_members names = Except.ok out) :
    ∀ k m, ((k, ZipNode.dirNode m) ∈ out ∨ (k, ZipNode.fileNode m) ∈ out) →
      m.permissions = none ∧ m.uid = none ∧ m.gid = none ∧
        m.uname = none ∧ m.gname = none ∧ m.is_link = false := by
  intro k m hm
  have base := zip_members_foldl_mem _ _ _ h
  have hmeta : m = zip_add_listing_meta := by
    rcases hm with hm | hm
    · rcases base _ hm with h1 | h1 | h1
      · rcases List.mem_singleton.mp h1 with h2
        injection h2 with h3 h4
        cases h4
      · injection h1 with e
      · cases h1
    · rcases base _ hm with h1 | h1 | h1
      · rcases List.mem_singleton.mp h1 with h2
        injection h2 with h3 h4
        cases h4
      · cases h1
      · injection h1 with e
  subst hmeta
  exact ⟨rfl, rfl, rfl, rfl, rfl, rfl⟩

/-- **C10, witness.**  Concrete instance: a zip whose name list is
`["a.txt"]` enumerates `a.txt` with every metadata field absent. -/
theorem XDelta3ZipImpl_members_no_metadata_witness :
    zip_add_listing_meta.permissions = none ∧
      zip_add_listing_meta.uid = none ∧ zip_add_listing_meta.gid = none ∧
      zip_add_listing_meta.uname = none ∧
      zip_add_listing_meta.gname = none ∧
      zip_add_listing_meta.is_link = false :=
  XDelta3ZipImpl_members_no_metadata ["a.txt".data]
    [(none, ZipNode.rootNode),
     (some "a.txt".data, ZipNode.fileNode zip_add_listing_meta)]
    rfl (some "a.txt".data) zip_add_listing_meta (Or.inr (by decide))

/-! ## Theorems for C4 -/

/-- Monotonicity of a fold over key-inserting steps. -/
lemma foldl_mem_mono {β : Type} (step : List TarKey → β → List TarKey)
    (hstep : ∀ ks b x, x ∈ ks → x ∈ step ks b) :
    ∀ (l : List β) (ks : List TarKey) (x : TarKey),
      x ∈ ks → x ∈ l.foldl step ks := by
  intro l
  induction l with
  | nil =>
    intro ks x hx
    exact hx
  | cons b bs ih =>
    intro ks x hx
    exact ih _ _ (hstep ks b x hx)

/-- `_create_dir_structure_to` never removes keys (one step). -/
lemma create_dir_step_mono (target : List PyStr) (ks : List TarKey)
    (i : Nat) (x : TarKey) (hx : x ∈ ks) :
    x ∈ create_dir_step target ks i := by
  unfold create_dir_step
  split
  · exact hx
  · exact List.mem_append_left _ hx

/-- `_create_dir_structure_to` never removes keys. -/
lemma create_dir_structure_to_mono (items : List TarKey)
    (target : List PyStr) (x : TarKey) (hx : x ∈ items) :
    x ∈ create_dir_structure_to items target :=
  foldl_mem_mono (create_dir_step target) (create_dir_step_mono target)
    (List.range target.length) items x hx

/-- One step of `_create_dir_structure_to` makes its own prefix present. -/
lemma create_dir_step_self_mem (target : List PyStr) (ks : List TarKey)
    (i : Nat) : some (target.take (i + 1)) ∈ create_dir_step target ks i := by
  unfold create_dir_step
  by_cases hc : ks.contains (some (target.take (i + 1))) = true
  · rw [if_pos hc]
    exact List.elem_iff.mp hc
  · rw [if_neg hc]
    exact List.mem_append_right _ (List.mem_singleton.mpr rfl)

/-- After `_create_dir_structure_to`, every nonempty segment prefix of the
target is a key: the synthesis covers all missing intermediate
directories. -/
lemma prefix_mem_create_dir_aux (target : List PyStr) :
    ∀ (n : Nat) (ks : List TarKey) (k : Nat), 0 < k → k ≤ n →
      some (target.take k) ∈
        (List.range n).foldl (create_dir_step target) ks := by
  intro n
  induction n with
  | zero =>
    intro ks k h1 h2
    omega
  | succ n ih =>
    intro ks k h1 h2
    rw [List.range_succ, List.foldl_append, List.foldl_cons, List.foldl_nil]
    rcases Nat.lt_or_ge k (n + 1) with hk | hk
    · exact create_dir_step_mono target _ n _ (ih ks k h1 (by omega))
    · have hkeq : k = n + 1 := by omega
      subst hkeq
      exact create_dir_step_self_mem target _ n

/-- Every nonempty segment prefix of the target is a key after
`_create_dir_structure_to`. -/
lemma prefix_mem_create_dir (items : List TarKey) (target : List PyStr)
    (k : Nat) (h1 : 0 < k) (h2 : k ≤ target.length) :
    some (target.take k) ∈ create_dir_structure_to items target :=
  prefix_mem_create_dir_aux target target.length items k h1 h2

/-- The parent-ensuring guard never removes keys. -/
lemma tar_members_ensure_parent_mono (ks : List TarKey) (f : List PyStr)
    (x : TarKey) (hx : x ∈ ks) : x ∈ tar_members_ensure_parent ks f := by
  unfold tar_members_ensure_parent
  split
  · exact hx
  · exact create_dir_structure_to_mono ks f.dropLast x hx

/-- After the parent-ensuring guard, the file's parent key is present
(given that the root key is present, as it always is). -/
lemma tar_members_ensure_parent_parent_mem (ks : List TarKey)
    (f : List PyStr) (hnone : none ∈ ks) :
    parentKey f ∈ tar_members_ensure_parent ks f := by
  unfold tar_members_ensure_parent
  by_cases hp : ks.contains (parentKey f) = true
  · rw [if_pos hp]
    exact List.elem_iff.mp hp
  · rw [if_neg hp]
    unfold parentKey at hp ⊢
    by_cases hd : f.dropLast.isEmpty = true
    · rw [if_pos hd] at hp
      exact absurd (List.elem_iff.mpr hnone) hp
    · rw [if_neg hd]
      have hlen : 0 < f.dropLast.length := by
        cases hfd : f.dropLast with
        | nil =>
          rw [hfd] at hd
          simp at hd
        | cons a l => simp [hfd]
      have hmem :=
        prefix_mem_create_dir ks f.dropLast f.dropLast.length hlen
          (le_refl _)
      rwa [List.take_length] at hmem

/-- The file pass never removes keys (one step). -/
lemma tar_members_files_step_mono (ks : List TarKey) (f : List PyStr)
    (x : TarKey) (hx : x ∈ ks) : x ∈ tar_members_files_step ks f := by
  unfold tar_members_files_step
  split
  · exact tar_members_ensure_parent_mono ks f x hx
  · exact List.mem_append_left _ (tar_members_ensure_parent_mono ks f x hx)

/-- After its step of the file pass, the file's own key is present. -/
lemma tar_members_files_step_self_mem (ks : List TarKey) (f : List PyStr) :
    some f ∈ tar_members_files_step ks f := by
  unfold tar_members_files_step
  by_cases hc :
      (tar_members_ensure_parent ks f).contains (some f) = true
  · rw [if_pos hc]
    exact List.elem_iff.mp hc
  · rw [if_neg hc]
    exact List.mem_append_right _ (List.mem_singleton.mpr rfl)

/-- After its step of the file pass, the file's parent key is present. -/
lemma tar_members_files_step_parent_mem (ks : List TarKey)
    (f : List PyStr) (hnone : none ∈ ks) :
    parentKey f ∈ tar_members_files_step ks f := by
  unfold tar_members_files_step
  split
  · exact tar_members_ensure_parent_parent_mem ks f hnone
  · exact List.mem_append_left _
      (tar_members_ensure_parent_parent_mem ks f hnone)

/-- After the whole file pass, every processed file and its parent key are
present. -/
lemma tar_members_files_fold_mem :
    ∀ (files : List (List PyStr)) (ks : List TarKey), none ∈ ks →
      ∀ f ∈ files,
        some f ∈ files.foldl tar_members_files_step ks ∧
        parentKey f ∈ files.foldl tar_members_files_step ks := by
  intro files
  induction files with
  | nil =>
    intro ks hnone f hf
    cases hf
  | cons g gs ih =>
    intro ks hnone f hf
    rw [List.foldl_cons]
    rcases List.mem_cons.mp hf with rfl | hf'
    · constructor
      · exact foldl_mem_mono _ tar_members_files_step_mono gs _ _
          (tar_members_files_step_self_mem ks f)
      · exact foldl_mem_mono _ tar_members_files_step_mono gs _ _
          (tar_members_files_step_parent_mem ks f hnone)
    · exact ih (tar_members_files_step ks g)
        (tar_members_files_step_mono ks g none hnone) f hf'

/-- The root key survives the folder pass. -/
lemma none_mem_tar_members_after_dirs (l : List (List PyStr)) :
    none ∈ tar_members_after_dirs l := by
  unfold tar_members_after_dirs
  apply foldl_mem_mono
  · intro ks b x hx
    split
    · exact hx
    · exact List.mem_append_left _ hx
  · exact List.mem_singleton.mpr rfl

/-- Every key of the two-pass mapping survives the final re-keying into
`ordered_items`. -/
lemma mem_tar_members_keys_of_pre (members : List TarMember) (k : TarKey)
    (hk : k ∈ tar_members_keys_pre members) : k ∈ tar_members_keys members := by
  unfold tar_members_keys
  rcases k with _ | d
  · exact List.mem_append_left _
      (List.mem_append_left _ (List.mem_singleton.mpr rfl))
  · by_cases hn :
        ((members.map (fun m => some m.name)).contains (some d)) = true
    · exact List.mem_append_left _
        (List.mem_append_right _ (List.elem_iff.mp hn))
    · apply List.mem_append_right
      apply List.mem_filter.mpr
      refine ⟨hk, ?_⟩
      cases hb : (members.map (fun m => some m.name)).contains (some d) with
      | true => exact absurd hb hn
      | false => rfl

/-- **C4, amended.**  In the tar adapter's flat mapping, parent-exists
holds for file members: every file member's key is present and so is its
parent key, because `_create_dir_structure_to` synthesizes every missing
segment prefix when the parent is absent.  (Directory members do not get
this treatment; see the counterexample.) -/
theorem tar_members_file_parent_present (members : List TarMember) :
    (∀ m ∈ members, m.isdir = false →
      some m.name ∈ tar_members_keys members ∧
      parentKey m.name ∈ tar_members_keys members) ∧
    (∀ (items : List TarKey) (target : List PyStr) (k : Nat),
      0 < k → k ≤ target.length →
      some (target.take k) ∈ create_dir_structure_to items target) := by
  constructor
  · intro m hm hdir
    have hfiles : m.name ∈
        (members.filter (fun m => !m.isdir)).map (fun m => m.name) :=
      List.mem_map.mpr
        ⟨m, List.mem_filter.mpr ⟨hm, by simp [hdir]⟩, rfl⟩
    have hfold :=
      tar_members_files_fold_mem
        ((members.filter (fun m => !m.isdir)).map (fun m => m.name))
        (tar_members_after_dirs
          (((members.filter (fun m => m.isdir)).map
              (fun m => m.name)).insertionSort
            (fun a b => segPathLen a ≤ segPathLen b)))
        (none_mem_tar_members_after_dirs _) m.name hfiles
    exact ⟨mem_tar_members_keys_of_pre members _ hfold.1,
      mem_tar_members_keys_of_pre members _ hfold.2⟩
  · intro items target k h1 h2
    exact prefix_mem_create_dir items target k h1 h2

/-- **C4, counterexample.**  A tar archive whose only member is the
directory `a/b` (the archive omits `a`) yields a mapping whose key `a/b`
has no parent key: the folder pass does not synthesize missing parents of
directory members, refuting the parent-exists invariant and the claim
that synthesis happens for directory members too. -/
theorem tar_members_dir_parent_missing :
    some ["a".data, "b".data] ∈
        tar_members_keys [⟨["a".data, "b".data], true⟩] ∧
      parentKey ["a".data, "b".data] ∉
        tar_members_keys [⟨["a".data, "b".data], true⟩] := by decide

/-- **C4, amended, witness.**  Concrete instance: a tar archive whose only
member is the file `a/b/c` gets keys for `a/b/c` and its parent `a/b`
(synthesized). -/
theorem tar_members_file_parent_present_witness :
    some ["a".data, "b".data, "c".data] ∈
        tar_members_keys [⟨["a".data, "b".data, "c".data], false⟩] ∧
      parentKey ["a".data, "b".data, "c".data] ∈
        tar_members_keys [⟨["a".data, "b".data, "c".data], false⟩] :=
  (tar_members_file_parent_present
      [⟨["a".data, "b".data, "c".data], false⟩]).1
    ⟨["a".data, "b".data, "c".data], false⟩
    (List.mem_singleton.mpr rfl) rfl

/-! ## Theorems for C7 -/

/-- A strict descendant's relative path is strictly longer than its
ancestor's. -/
lemma isDescendantOf_length {c a : PyStr}
    (h : isDescendantOf c a = true) : a.length < c.length := by
  have hp := List.isPrefixOf_iff_prefix.mp h
  have hle := hp.length_le
  rw [List.length_append] at hle
  have : pySep.length = 1 := rfl
  omega

/-- **C7, confirmed.**  For every old-snapshot key list and patch set, the
length-descending sort of the removal list puts every strict descendant
strictly before its ancestor: no removal task for a directory `D` is
submitted before the removal task for any descendant of `D`. -/
theorem removed_items_sorted_descendants_first
    (old_keys : List (Option PyStr)) (files_in_patch : List PyStr)
    (i j : Fin (removed_items_sorted old_keys files_in_patch).length)
    (h : isDescendantOf
          ((removed_items_sorted old_keys files_in_patch).get j)
          ((removed_items_sorted old_keys files_in_patch).get i) = true) :
    (j : Nat) < (i : Nat) := by
  have hlen := isDescendantOf_length h
  by_contra hle
  push_neg at hle
  rcases Nat.lt_or_ge (i : Nat) (j : Nat) with hij | hij
  · have hs : List.Sorted lenDescRel
        (removed_items_sorted old_keys files_in_patch) :=
      List.sorted_insertionSort lenDescRel _
    have := hs.rel_get_of_lt (show i < j from hij)
    exact absurd hlen (not_lt.mpr this)
  · have : (i : Nat) = (j : Nat) := le_antisymm hle hij
    have : i = j := Fin.ext this
    subst this
    exact absurd hlen (lt_irrefl _)

/-- **C7, witness.**  Concrete instance: removing `{ "a", "a/b" }` sorts
`a/b` (index 0) before `a` (index 1), and the descendant check holds. -/
theorem removed_items_sorted_descendants_first_witness :
    isDescendantOf
        ((removed_items_sorted [some "a".data, some "a/b".data] []).get
          ⟨0, by decide⟩)
        ((removed_items_sorted [some "a".data, some "a/b".data] []).get
          ⟨1, by decide⟩) = true ∧ (0 : Nat) < 1 :=
  ⟨by decide,
    removed_items_sorted_descendants_first [some "a".data, some "a/b".data]
      [] ⟨1, by decide⟩ ⟨0, by decide⟩ (by decide)⟩

end XD3
